import Mathlib

/-!
Verification of the core layout and encoding engine of `treeomics`
(`src/treeomics/plots/plots.py`): the mutation-table priority engine,
the cell encoder, the label formatter and the layout composer.

Python numeric cell values (`maf` entries of `data`) are modelled as `Int`;
the exact intensity arithmetic of the cell encoder is modelled over `ℚ`
(variant fractions) and `ℝ` (the logarithmic coverage scale).
-/

namespace Treeomics

/-- Modelled from the spec: the module `utils/int_settings.py`, which defines
the sentinels `POS_UNKNOWN` and `NEG_UNKNOWN`, is not part of the sources;
the spec describes them as two distinct "unknown" sentinel values that are
not positive (`PRESENT` is "a positive numeric value", `ABSENT` is "zero or
negative-below-threshold"). They are modelled as two distinct negative
integers. -/
def POS_UNKNOWN : Int := -1

/-- Modelled from the spec: the second ambiguous sentinel of
`utils/int_settings.py`, distinct from `POS_UNKNOWN` and not positive. -/
def NEG_UNKNOWN : Int := -2

/-- The priority weight of one cell value, from the `if/elif` chain in
`hinton` (plots.py lines 65-73): `3` if `maf > 0` (present), `1` for either
ambiguous sentinel, `0` otherwise (absent). -/
def weight (maf : Int) : Nat :=
  if maf > 0 then 3
  else if maf = POS_UNKNOWN then 1
  else if maf = NEG_UNKNOWN then 1
  else 0

/-- The three display classes of a cell value. -/
inductive StateClass : Type
  | present : StateClass
  | ambiguous : StateClass
  | absent : StateClass
deriving DecidableEq

/-- Classification of a raw cell value into its display class, mirroring the
`if maf > 0 / elif maf == POS_UNKNOWN / elif maf == NEG_UNKNOWN / else`
chains of `hinton` and `create_incompatible_mp_table`. -/
def stateClass (maf : Int) : StateClass :=
  if maf > 0 then .present
  else if maf = POS_UNKNOWN then .ambiguous
  else if maf = NEG_UNKNOWN then .ambiguous
  else .absent

/-- The rank of a display class in the order present > ambiguous > absent. -/
def rank : StateClass → Nat
  | .present => 2
  | .ambiguous => 1
  | .absent => 0

/-- A matplotlib color argument: either a named color such as `'blue'` or an
RGB triple. -/
inductive PlotColor : Type
  | named (s : String) : PlotColor
  | rgb (r g b : ℚ) : PlotColor
deriving DecidableEq

/-- The cell fill color of `hinton` (plots.py lines 82-91): `'blue'` when the
mutation is present, the merged ambiguous hue `(0.9, 0.75, 0.75)` for either
unknown sentinel, and `(1.0, 0.3, 0.3)` otherwise. -/
def colorOf (maf : Int) : PlotColor :=
  if maf > 0 then .named "blue"
  else if maf = POS_UNKNOWN then .rgb (9/10) (3/4) (3/4)
  else if maf = NEG_UNKNOWN then .rgb (9/10) (3/4) (3/4)
  else .rgb 1 (3/10) (3/10)

/-- One step of the priority accumulation of `hinton` (plots.py lines 63-73):
`priorityFrom S i states` adds `weight maf * 4 ^ (S - i - 1)` for each state,
with `i` the running `enumerate` index and `S` the length of the full row
(`len(data[mut_idx])`). -/
def priorityFrom (S : Nat) : Nat → List Int → Nat
  | _, [] => 0
  | i, maf :: rest => weight maf * 4 ^ (S - i - 1) + priorityFrom S (i + 1) rest

/-- The priority of one mutation row in `hinton`: samples visited in declared
order. -/
def hintonPriority (row : List Int) : Nat :=
  priorityFrom row.length 0 row

/-- The priority of one mutation row in `clustered_table` (plots.py lines
361-375): the loop runs `i` over `range(len(row))`, reads the state of sample
`leafOrder[i]` (the reversed dendrogram leaf ordering) and adds
`weight * 4 ^ (S - i - 1)`. Out-of-range accesses (which would raise in
Python) are modelled with default values. -/
def clusteredPriority (row : List Int) (leafOrder : List Nat) : Nat :=
  (List.range row.length).foldl
    (fun acc i => acc + weight (row.getD (leafOrder.getD i 0) 0) * 4 ^ (row.length - i - 1)) 0

/-- The priority formula as worded by the spec: the sum over sample positions
`i` in the effective order of `weight(state_i) * 4 ^ (S - i - 1)`, where
`state_i` is the state of sample `leafOrder[i]`. -/
def specClusteredPriority (row : List Int) (leafOrder : List Nat) : Nat :=
  ∑ i ∈ Finset.range row.length,
    weight (row.getD (leafOrder.getD i 0) 0) * 4 ^ (row.length - i - 1)

/-- The priority formula as worded by the spec for the declared sample order:
the sum over sample positions `i` of `weight(state_i) * 4 ^ (S - i - 1)`. -/
def specDeclaredPriority (row : List Int) : Nat :=
  ∑ i ∈ Finset.range row.length, weight (row.getD i 0) * 4 ^ (row.length - i - 1)

/-- The priorities array of `hinton` as a function of the mutation index:
`priorities[k] = hintonPriority (data[k])` for displayed mutations. -/
def hintonPriorities (data : List (List Int)) (k : Nat) : Nat :=
  hintonPriority (data.getD k [])

/-- The sort key relation of `hinton` (plots.py lines 77-79): Python sorts the
displayed mutation indices ascending by the key tuple
`(-priorities[k], column_labels[k] if column_labels is not None else 0)`.
`sortRel p labels a b` holds when `a`'s key tuple is at most `b`'s: with
labels supplied, strictly larger priority or equal priority and a name at
most `b`'s (Python string comparison is case-sensitive, by code point, as is
Lean's); without labels, the second key component is the constant `0`, so the
relation collapses to `p b ≤ p a`. -/
def sortRel (p : Nat → Nat) (labels : Option (Nat → String)) (a b : Nat) : Prop :=
  match labels with
  | some lab => p b < p a ∨ (p a = p b ∧ lab a ≤ lab b)
  | none => p b ≤ p a

instance (p : Nat → Nat) (labels : Option (Nat → String)) :
    DecidableRel (sortRel p labels) := by
  intro a b
  unfold sortRel
  cases labels <;> infer_instance

instance (p : Nat → Nat) (labels : Option (Nat → String)) :
    IsTotal Nat (sortRel p labels) := by
  constructor
  intro a b
  cases labels with
  | none => exact le_total (p b) (p a)
  | some lab =>
    rcases lt_trichotomy (p a) (p b) with h | h | h
    · exact Or.inr (Or.inl h)
    · rcases le_total (lab a) (lab b) with h' | h'
      · exact Or.inl (Or.inr ⟨h, h'⟩)
      · exact Or.inr (Or.inr ⟨h.symm, h'⟩)
    · exact Or.inl (Or.inl h)

instance (p : Nat → Nat) (labels : Option (Nat → String)) :
    IsTrans Nat (sortRel p labels) := by
  constructor
  intro a b c hab hbc
  cases labels with
  | none => exact le_trans hbc hab
  | some lab =>
    rcases hab with h1 | ⟨h1, h1'⟩ <;> rcases hbc with h2 | ⟨h2, h2'⟩
    · exact Or.inl (h2.trans h1)
    · exact Or.inl (h2 ▸ h1)
    · exact Or.inl (h1 ▸ h2)
    · exact Or.inr ⟨h1.trans h2, h1'.trans h2'⟩

/-- The displayed-mutation ordering of `hinton` (plots.py lines 77-79):
Python's `sorted` is a stable sort ascending by the key tuple, modelled by
the stable `List.insertionSort` over `sortRel`. -/
def sortDisplayed (p : Nat → Nat) (labels : Option (Nat → String))
    (displayed : List Nat) : List Nat :=
  displayed.insertionSort (sortRel p labels)

/-- One placed rectangle of the mutation table: its lower-left corner and its
fill color. Coordinates are exact rationals. -/
structure TableCell : Type where
  x : ℚ
  y : ℚ
  color : PlotColor
deriving DecidableEq

/-- One placed row label: its `y` coordinate and its text. -/
structure RowLabel : Type where
  y : ℚ
  text : String
deriving DecidableEq

/-- Python's `row_name.replace('_', ' ')`: a single character replaced by a
single character is a character map. -/
def replaceUnderscores (s : String) : String :=
  String.mk (s.toList.map (fun c => if c = '_' then ' ' else c))

/-- The inner loop of `clustered_table` over one mutation column (plots.py
lines 381-399): for `i` in `range(len(row))`, the cell reads the state of
sample `leafOrder[i]` (`sa_idx = leave_ordering[i]`) and is placed at
`[x_pos * width, (height+y_spacing) * (len(row) - i - 1)]` with `width = 2`,
`height + y_spacing = 5`. -/
def clusteredColumnCells (row : List Int) (leafOrder : List Nat)
    (x_pos : Nat) : List TableCell :=
  (List.range row.length).map (fun i =>
    { x := (x_pos : ℚ) * 2
      y := 5 * ((row.length - i - 1 : Nat) : ℚ)
      color := colorOf (row.getD (leafOrder.getD i 0) 0) })

/-- The row labels of `clustered_table` (plots.py lines 402-406): for
`i, sa_idx in enumerate(reversed(den['leaves']))` the text
`row_labels[sa_idx].replace('_', ' ')` is placed at
`(height+y_spacing) * (len(row_labels) - i - 1) + 0.5`. `leafOrder` is the
reversed dendrogram leaves list, i.e. the same effective order used for the
cells. -/
def clusteredRowLabels (row_labels : List String) (leafOrder : List Nat) :
    List RowLabel :=
  (List.range row_labels.length).map (fun i =>
    { y := 5 * ((row_labels.length - i - 1 : Nat) : ℚ) + 1/2
      text := replaceUnderscores (row_labels.getD (leafOrder.getD i 0) "") })

/-- Index of the first occurrence of `c` in `s`, or `none`: the helper behind
Python's `str.find`. -/
def findFrom (c : Char) : List Char → Option Nat
  | [] => none
  | a :: rest => if a = c then some 0 else (findFrom c rest).map (· + 1)

/-- Python's `s.find(c, start)`: the least index `≥ start` holding `c`, or
`-1`. -/
def pyFind (s : List Char) (c : Char) (start : Nat) : Int :=
  match findFrom c (s.drop start) with
  | some k => ((k + start : Nat) : Int)
  | none => -1

/-- Steps (1)-(2) of `_format_gene_name` (plots.py lines 644-645): Python's
`replace(' ', '')` then `replace('"', '')` — replacing a single character by
the empty string removes every occurrence, i.e. filters it out. -/
def stripName (gene_name : List Char) : List Char :=
  (gene_name.filter (fun c => c ≠ ' ')).filter (fun c => c ≠ '"')

/-- Step (3) of `_format_gene_name` (plots.py lines 647-649): if the stripped
name is longer than `max_length - 4` (Python `int` arithmetic, so the bound
may be negative) and `gene_name.find(',', 6)` succeeds, i.e. a comma occurs
at index `≥ 6`, cut just before that comma (`gene_name[:find]`). -/
def commaTrunc (max_length : Nat) (g1 : List Char) : List Char :=
  if (g1.length : Int) > (max_length : Int) - 4 then
    match findFrom ',' (g1.drop 6) with
    | some k => g1.take (6 + k)
    | none => g1
  else g1

/-- Step (4) of `_format_gene_name` (plots.py lines 650-652): hard-truncate
to `max_length` characters when still longer. -/
def hardTrunc (max_length : Nat) (g2 : List Char) : List Char :=
  if max_length < g2.length then g2.take max_length else g2

/-- `_format_gene_name` (plots.py lines 634-653) over the character list of
the name: the three reassignments of `gene_name` in sequence. -/
def format_gene_name (gene_name : List Char) (max_length : Nat) : List Char :=
  hardTrunc max_length (commaTrunc max_length (stripName gene_name))

/-- `_format_gene_name` on strings. -/
def formatGeneName (gene_name : String) (max_length : Nat) : String :=
  String.mk (format_gene_name gene_name.toList max_length)

/-- The guarded raw variant fraction of `create_incompatible_mp_table`
(plots.py lines 180-184): `mut_reads / cov` when `cov > 0`, else `0.0`. -/
def raw_maf (mut_reads cov : ℚ) : ℚ :=
  if cov > 0 then mut_reads / cov else 0

/-- The variant-fraction intensity fed to the `Blues` colormap (plots.py line
197): `2.0 * raw_maf if raw_maf < 0.5 else 1.0`. -/
def maf_intensity (mut_reads cov : ℚ) : ℚ :=
  if raw_maf mut_reads cov < 1/2 then 2 * raw_maf mut_reads cov else 1

/-- The coverage intensity fed to the `Greens` colormap (plots.py line 198):
`math.log(cov, 10)/3 if 0 < cov < 1000 else 0.0 if cov <= 0.0 else 1.0`. -/
noncomputable def cov_intensity (cov : ℝ) : ℝ :=
  if 0 < cov ∧ cov < 1000 then Real.logb 10 cov / 3
  else if cov ≤ 0 then 0 else 1

/-- The default displayed-mutation list of `hinton` and `clustered_table`
(plots.py lines 45-46): all mutation indices when no subset is given. -/
def displayedDefault (data : List (List Int)) : List Nat :=
  List.range data.length

theorem priorityFrom_eq_sum (S : Nat) :
    ∀ (l : List Int) (i : Nat),
      priorityFrom S i l =
        ∑ j ∈ Finset.range l.length, weight (l.getD j 0) * 4 ^ (S - (i + j) - 1) := by
  intro l
  induction l with
  | nil => intro i; simp [priorityFrom]
  | cons m rest ih =>
    intro i
    rw [priorityFrom, ih (i + 1)]
    rw [List.length_cons, Finset.sum_range_succ']
    simp only [List.getD_cons_succ, List.getD_cons_zero, Nat.add_zero]
    rw [Nat.add_comm]
    congr 1
    apply Finset.sum_congr rfl
    intro j _
    congr 2
    omega

theorem foldl_range_add (g : Nat → Nat) :
    ∀ (n : Nat) (a : Nat),
      (List.range n).foldl (fun acc i => acc + g i) a = a + ∑ i ∈ Finset.range n, g i := by
  intro n
  induction n with
  | zero => intro a; simp
  | succ n ih =>
    intro a
    rw [List.range_succ, List.foldl_append, ih, Finset.sum_range_succ]
    simp [Nat.add_assoc]

theorem hintonPriority_eq_spec (row : List Int) :
    hintonPriority row = specDeclaredPriority row := by
  rw [hintonPriority, specDeclaredPriority, priorityFrom_eq_sum]
  apply Finset.sum_congr rfl
  intro j _
  simp

theorem clusteredPriority_eq_spec (row : List Int) (leafOrder : List Nat) :
    clusteredPriority row leafOrder = specClusteredPriority row leafOrder := by
  rw [clusteredPriority, specClusteredPriority, foldl_range_add]
  simp

theorem weight_eq_of_stateClass (m : Int) :
    weight m = (match stateClass m with
                | .present => 3 | .ambiguous => 1 | .absent => 0) := by
  unfold weight stateClass
  split_ifs <;> rfl

theorem weight_lt_of_rank_lt {m m' : Int}
    (h : rank (stateClass m') < rank (stateClass m)) : weight m' < weight m := by
  rw [weight_eq_of_stateClass m, weight_eq_of_stateClass m']
  cases hm : stateClass m <;> cases hm' : stateClass m' <;>
    simp [hm, hm', rank] at h ⊢

theorem weight_le_three (m : Int) : weight m ≤ 3 := by
  unfold weight; split_ifs <;> omega

theorem priorityFrom_append (S : Nat) (a b : List Int) :
    ∀ i, priorityFrom S i (a ++ b) = priorityFrom S i a + priorityFrom S (i + a.length) b := by
  induction a with
  | nil => intro i; simp [priorityFrom]
  | cons m rest ih =>
    intro i
    rw [List.cons_append, priorityFrom, priorityFrom, ih (i + 1), List.length_cons,
      show i + (rest.length + 1) = i + 1 + rest.length from by omega]
    omega

theorem priorityFrom_lt (S : Nat) :
    ∀ (l : List Int) (i : Nat), i + l.length ≤ S → priorityFrom S i l < 4 ^ (S - i) := by
  intro l
  induction l with
  | nil =>
    intro i _
    simp only [priorityFrom]
    exact Nat.pos_pow_of_pos (S - i) (by omega)
  | cons m rest ih =>
    intro i hle
    simp only [List.length_cons] at hle
    have hi : i < S := by omega
    have hrest : priorityFrom S (i + 1) rest < 4 ^ (S - (i + 1)) := ih (i + 1) (by omega)
    have hexp' : S - (i + 1) = S - i - 1 := by omega
    rw [hexp'] at hrest
    have h4 : (4 : Nat) ^ (S - i) = 4 ^ (S - i - 1) * 4 := by
      rw [← pow_succ]
      congr 1
      omega
    rw [priorityFrom, h4]
    have h1 : weight m * 4 ^ (S - i - 1) ≤ 3 * 4 ^ (S - i - 1) :=
      Nat.mul_le_mul_right _ (weight_le_three m)
    omega

theorem priorityFrom_decomp (w : List Int) (i : Nat) (hiw : i < w.length) :
    priorityFrom w.length 0 w =
      priorityFrom w.length 0 (w.take i) +
        (weight w[i] * 4 ^ (w.length - i - 1) +
          priorityFrom w.length (i + 1) (w.drop (i + 1))) := by
  have hw : w = w.take i ++ w[i] :: w.drop (i + 1) := by
    conv_lhs => rw [← List.take_append_drop i w]
    rw [List.drop_eq_getElem_cons hiw]
  calc priorityFrom w.length 0 w
      = priorityFrom w.length 0 (w.take i ++ w[i] :: w.drop (i + 1)) :=
        congrArg (priorityFrom w.length 0) hw
    _ = priorityFrom w.length 0 (w.take i) +
          priorityFrom w.length (0 + (w.take i).length) (w[i] :: w.drop (i + 1)) :=
        priorityFrom_append _ _ _ 0
    _ = _ := by
        rw [List.length_take, show 0 + (i ⊓ w.length) = i from by omega, priorityFrom]

/-- C1: the priority of a mutation state vector is the sum over sample
positions `i` in the effective order (dendrogram leaf order in
`clustered_table`, declared order in `hinton`) of
`weight(state_i) * 4 ^ (S - i - 1)`, with weight 3 for present, 1 for either
ambiguous sentinel and 0 otherwise; and on the 3-mutation x 2-sample scenario
`[[PRESENT, ABSENT], [ABSENT, PRESENT], [AMBIGUOUS_POSITIVE, ABSENT]]` the
priorities are 12, 3 and 4, so the descending-priority display order is
mutation 0, then 2, then 1. -/
theorem claim_C1 :
    (∀ row : List Int, hintonPriority row = specDeclaredPriority row) ∧
    (∀ (row : List Int) (leafOrder : List Nat),
      clusteredPriority row leafOrder = specClusteredPriority row leafOrder) ∧
    (hintonPriorities [[1, 0], [0, 1], [POS_UNKNOWN, 0]] 0 = 12 ∧
     hintonPriorities [[1, 0], [0, 1], [POS_UNKNOWN, 0]] 1 = 3 ∧
     hintonPriorities [[1, 0], [0, 1], [POS_UNKNOWN, 0]] 2 = 4 ∧
     sortDisplayed (hintonPriorities [[1, 0], [0, 1], [POS_UNKNOWN, 0]]) none
       (displayedDefault [[1, 0], [0, 1], [POS_UNKNOWN, 0]]) = [0, 2, 1]) :=
  ⟨hintonPriority_eq_spec, clusteredPriority_eq_spec,
    by decide, by decide, by decide, by decide⟩

/-- C2: if two equal-length state vectors first differ at sample position `i`
and `v`'s state there ranks strictly higher (present > ambiguous > absent),
then `v`'s priority is strictly greater, whatever the later states are. -/
theorem claim_C2 (v v' : List Int) (hlen : v'.length = v.length) (i : Nat)
    (hi : i < v.length) (hpre : ∀ j, j < i → v.getD j 0 = v'.getD j 0)
    (hrank : rank (stateClass (v'.getD i 0)) < rank (stateClass (v.getD i 0))) :
    hintonPriority v > hintonPriority v' := by
  have hi' : i < v'.length := by omega
  have htake : v.take i = v'.take i := by
    apply List.ext_getElem
    · simp [List.length_take]
      omega
    · intro n h1 h2
      rw [List.getElem_take, List.getElem_take]
      have hn : n < i := by simp [List.length_take] at h1; omega
      have e1 := List.getD_eq_getElem v 0 (show n < v.length by omega)
      have e2 := List.getD_eq_getElem v' 0 (show n < v'.length by omega)
      rw [← e1, ← e2]
      exact hpre n hn
  have hw : weight v'[i] < weight v[i] := by
    apply weight_lt_of_rank_lt
    rwa [List.getD_eq_getElem v 0 hi, List.getD_eq_getElem v' 0 hi'] at hrank
  have hPv := priorityFrom_decomp v i hi
  have hPv' := priorityFrom_decomp v' i hi'
  rw [hlen, ← htake] at hPv'
  have htail : priorityFrom v.length (i + 1) (v'.drop (i + 1)) <
      4 ^ (v.length - i - 1) := by
    have h := priorityFrom_lt v.length (v'.drop (i + 1)) (i + 1)
      (by rw [List.length_drop]; omega)
    rwa [show v.length - (i + 1) = v.length - i - 1 from by omega] at h
  rw [hintonPriority, hintonPriority, hlen]
  have hmul : weight v'[i] * 4 ^ (v.length - i - 1) + 4 ^ (v.length - i - 1) ≤
      weight v[i] * 4 ^ (v.length - i - 1) := by
    calc weight v'[i] * 4 ^ (v.length - i - 1) + 4 ^ (v.length - i - 1)
        = (weight v'[i] + 1) * 4 ^ (v.length - i - 1) := by ring
      _ ≤ weight v[i] * 4 ^ (v.length - i - 1) :=
        Nat.mul_le_mul_right _ (by omega)
  omega

/-- Witness for C2 at `v = [PRESENT, ABSENT]`, `v' = [ABSENT, PRESENT]`,
first difference at position 0 where present outranks absent: 12 > 3. -/
theorem claim_C2_witness : hintonPriority [1, 0] > hintonPriority [0, 1] :=
  claim_C2 [1, 0] [0, 1] rfl 0 (by decide)
    (fun j hj => absurd hj (Nat.not_lt_zero j)) (by decide)

/-- C3 counterexample: with no display names and equal priorities, the sort
key is `(-priority, 0)`, so the stable sort keeps the supplied list order
`[1, 0]` instead of the ascending-index order `[0, 1]` the claim predicts. -/
theorem claim_C3_counterexample :
    sortDisplayed (hintonPriorities [[1, 0], [1, 0]]) none [1, 0] = [1, 0] ∧
    sortDisplayed (hintonPriorities [[1, 0], [1, 0]]) none [1, 0] ≠ [0, 1] := by
  constructor <;> decide

/-- C3 (amended): the display order is a permutation of the displayed list,
pairwise sorted by descending priority with ties broken by ascending
case-sensitive display name when names are supplied; with no names the
second key component is constant, so the output is pairwise sorted by
descending priority alone and — the sort being stable — any two mutations in
key order keep their relative order from the supplied displayed list (which
is ascending index only when that list is ascending, e.g. the default). -/
theorem claim_C3 :
    (∀ (p : Nat → Nat) (labels : Option (Nat → String)) (displayed : List Nat),
      (sortDisplayed p labels displayed).Perm displayed) ∧
    (∀ (p : Nat → Nat) (lab : Nat → String) (displayed : List Nat),
      (sortDisplayed p (some lab) displayed).Pairwise
        (fun a b => p b < p a ∨ (p a = p b ∧ lab a ≤ lab b))) ∧
    (∀ (p : Nat → Nat) (displayed : List Nat),
      (sortDisplayed p none displayed).Pairwise (fun a b => p b ≤ p a)) ∧
    (∀ (p : Nat → Nat) (labels : Option (Nat → String)) (displayed : List Nat)
        (a b : Nat), sortRel p labels a b → [a, b].Sublist displayed →
      [a, b].Sublist (sortDisplayed p labels displayed)) := by
  refine ⟨?_, ?_, ?_, ?_⟩
  · intro p labels displayed
    exact List.perm_insertionSort _ _
  · intro p lab displayed
    exact List.sorted_insertionSort (sortRel p (some lab)) _
  · intro p displayed
    exact List.sorted_insertionSort (sortRel p none) _
  · intro p labels displayed a b hr hs
    exact List.pair_sublist_insertionSort hr hs

/-- Witness for C3 at constant priorities and the displayed list `[1, 0]`:
the pair `[1, 0]` is in key order and survives the sort. -/
theorem claim_C3_witness :
    [1, 0].Sublist (sortDisplayed (fun _ => 0) none [1, 0]) :=
  claim_C3.2.2.2 (fun _ => 0) none [1, 0] 1 0 (by decide) (List.Sublist.refl _)

/-- C4: with a supplied leaf order, the cell at row position `i` of a column
uses the state data of sample `leafOrder[i]` (and its `y` coordinate is the
row-inverted `5 * (S - i - 1)`), and the row label at position `i` is the
original display name of sample `leafOrder[i]` (underscores shown as
spaces); concretely, declared order `[A, B, C]` with leaf order `[C, A, B]`
(indices `[2, 0, 1]`) places C's data in the top row labelled "C", A's
second labelled "A", B's third labelled "B" — and the top row does not show
the data of the sample declared at index 0. -/
theorem claim_C4 :
    (∀ (row : List Int) (leafOrder : List Nat) (x_pos i : Nat), i < row.length →
      (clusteredColumnCells row leafOrder x_pos).getD i ⟨0, 0, .named ""⟩ =
        { x := (x_pos : ℚ) * 2, y := 5 * ((row.length - i - 1 : Nat) : ℚ),
          color := colorOf (row.getD (leafOrder.getD i 0) 0) }) ∧
    (∀ (row_labels : List String) (leafOrder : List Nat) (i : Nat),
      i < row_labels.length →
      (clusteredRowLabels row_labels leafOrder).getD i ⟨0, ""⟩ =
        { y := 5 * ((row_labels.length - i - 1 : Nat) : ℚ) + 1/2,
          text := replaceUnderscores (row_labels.getD (leafOrder.getD i 0) "") }) ∧
    clusteredRowLabels ["A", "B", "C"] [2, 0, 1] =
      [⟨21/2, "C"⟩, ⟨11/2, "A"⟩, ⟨1/2, "B"⟩] ∧
    clusteredColumnCells [1, 0, POS_UNKNOWN] [2, 0, 1] 0 =
      [⟨0, 10, .rgb (9/10) (3/4) (3/4)⟩, ⟨0, 5, .named "blue"⟩,
       ⟨0, 0, .rgb 1 (3/10) (3/10)⟩] ∧
    ((clusteredColumnCells [1, 0, POS_UNKNOWN] [2, 0, 1] 0).getD 0
        ⟨0, 0, .named ""⟩).color ≠ colorOf ([1, 0, POS_UNKNOWN].getD 0 0) := by
  refine ⟨?_, ?_, ?_, ?_, ?_⟩
  · intro row lo x i hi
    rw [List.getD_eq_getElem _ _ (by simpa [clusteredColumnCells] using hi)]
    simp [clusteredColumnCells]
  · intro labs lo i hi
    rw [List.getD_eq_getElem _ _ (by simpa [clusteredRowLabels] using hi)]
    simp [clusteredRowLabels]
  · simp [clusteredRowLabels, List.range_succ]
    norm_num
    decide
  · simp [clusteredColumnCells, List.range_succ, colorOf, POS_UNKNOWN, NEG_UNKNOWN]
    norm_num
  · simp [clusteredColumnCells, List.range_succ, colorOf, POS_UNKNOWN, NEG_UNKNOWN]

/-- Witness for C4 at the scenario-B leaf order: the top-row cell of the
first column carries the data of sample `leafOrder[0] = 2`. -/
theorem claim_C4_witness :
    (clusteredColumnCells [1, 0, POS_UNKNOWN] [2, 0, 1] 0).getD 0 ⟨0, 0, .named ""⟩ =
      { x := ((0 : Nat) : ℚ) * 2,
        y := 5 * ((([1, 0, POS_UNKNOWN] : List Int).length - 0 - 1 : Nat) : ℚ),
        color := colorOf (([1, 0, POS_UNKNOWN] : List Int).getD
          (([2, 0, 1] : List Nat).getD 0 0) 0) } :=
  claim_C4.1 [1, 0, POS_UNKNOWN] [2, 0, 1] 0 0 (by decide)

/-- C5: the variant-fraction intensity equals
`min(1.0, 2 * supporting_reads/coverage)` when `coverage > 0` and `0.0` when
`coverage ≤ 0` (the guarded division never divides by zero); fraction 0 gives
intensity 0, fraction 0.5 gives 1, fraction 0.9 gives 1. -/
theorem claim_C5 :
    (∀ mut_reads cov : ℚ, maf_intensity mut_reads cov =
      if cov > 0 then min 1 (2 * mut_reads / cov) else 0) ∧
    maf_intensity 0 10 = 0 ∧ maf_intensity 1 2 = 1 ∧ maf_intensity 9 10 = 1 ∧
    (∀ mut_reads : ℚ, maf_intensity mut_reads 0 = 0) := by
  have key : ∀ mut_reads cov : ℚ, maf_intensity mut_reads cov =
      if cov > 0 then min 1 (2 * mut_reads / cov) else 0 := by
    intro r c
    unfold maf_intensity raw_maf
    by_cases hc : c > 0
    · simp only [if_pos hc]
      rw [mul_div_assoc]
      by_cases hr : r / c < 1/2
      · rw [if_pos hr, min_eq_right (by linarith)]
      · rw [if_neg hr, min_eq_left (by push_neg at hr; linarith)]
    · simp only [if_neg hc]
      norm_num
  refine ⟨key, ?_, ?_, ?_, fun r => ?_⟩ <;> rw [key] <;> norm_num

/-- C6: the coverage intensity is 0 for `coverage ≤ 0`, 1 for
`coverage ≥ 1000` and `log10(coverage)/3` in between; on the integer coverage
counts the program feeds it (read depths, `coverage ≥ 0`) it is monotone
non-decreasing, with `intensity(0) = 0`, `intensity(1) = 0`,
`intensity(1000) = 1`, `intensity(10000) = 1`. -/
theorem claim_C6 :
    (∀ cov : ℝ, cov ≤ 0 → cov_intensity cov = 0) ∧
    (∀ cov : ℝ, 1000 ≤ cov → cov_intensity cov = 1) ∧
    (∀ cov : ℝ, 0 < cov → cov < 1000 → cov_intensity cov = Real.logb 10 cov / 3) ∧
    (∀ m n : Nat, m ≤ n → cov_intensity m ≤ cov_intensity n) ∧
    cov_intensity 0 = 0 ∧ cov_intensity 1 = 0 ∧ cov_intensity 1000 = 1 ∧
    cov_intensity 10000 = 1 := by
  have h1000 : Real.logb 10 1000 = 3 := by
    rw [show (1000 : ℝ) = 10 ^ (3 : ℕ) by norm_num, Real.logb_pow,
      Real.logb_self_eq_one (by norm_num)]
    norm_num
  have hlow : ∀ cov : ℝ, cov ≤ 0 → cov_intensity cov = 0 := by
    intro c hc
    unfold cov_intensity
    rw [if_neg (by push_neg; intro h; linarith), if_pos hc]
  have hhigh : ∀ cov : ℝ, 1000 ≤ cov → cov_intensity cov = 1 := by
    intro c hc
    unfold cov_intensity
    rw [if_neg (by push_neg; intro h; linarith), if_neg (by linarith)]
  have hmid : ∀ cov : ℝ, 0 < cov → cov < 1000 →
      cov_intensity cov = Real.logb 10 cov / 3 := by
    intro c h0 h1
    unfold cov_intensity
    rw [if_pos ⟨h0, h1⟩]
  have hnonneg : ∀ n : Nat, 0 ≤ cov_intensity n := by
    intro n
    unfold cov_intensity
    split_ifs with h h2
    · have hn1 : (1 : ℝ) ≤ n := by
        have h0 : (0 : ℝ) < n := h.1
        exact_mod_cast Nat.succ_le_of_lt (by exact_mod_cast h0)
      have := Real.logb_nonneg (by norm_num : (1:ℝ) < 10) hn1
      linarith
    · exact le_refl _
    · norm_num
  have hmono : ∀ m n : Nat, m ≤ n → cov_intensity m ≤ cov_intensity n := by
    intro m n hmn
    rcases Nat.eq_zero_or_pos m with hm0 | hmpos
    · subst hm0
      have h0 : cov_intensity ((0 : Nat) : ℝ) = 0 := by
        rw [Nat.cast_zero]
        exact hlow 0 le_rfl
      rw [h0]
      exact hnonneg n
    · have hm1 : (1 : ℝ) ≤ m := by exact_mod_cast hmpos
      have hmn' : (m : ℝ) ≤ n := by exact_mod_cast hmn
      by_cases hn : (n : ℝ) < 1000
      · have hmlt : (m : ℝ) < 1000 := lt_of_le_of_lt hmn' hn
        rw [hmid m (by linarith) hmlt, hmid n (by linarith) hn]
        have := Real.logb_le_logb_of_le (by norm_num : (1:ℝ) < 10)
          (by linarith : (0:ℝ) < m) hmn'
        linarith
      · push_neg at hn
        rw [hhigh n hn]
        by_cases hm : (m : ℝ) < 1000
        · rw [hmid m (by linarith) hm]
          have := Real.logb_le_logb_of_le (by norm_num : (1:ℝ) < 10)
            (by linarith : (0:ℝ) < m) (le_of_lt hm)
          rw [h1000] at this
          linarith
        · push_neg at hm
          rw [hhigh m hm]
  refine ⟨hlow, hhigh, hmid, hmono, hlow 0 le_rfl, ?_, hhigh 1000 le_rfl,
    hhigh 10000 (by norm_num)⟩
  rw [hmid 1 (by norm_num) (by norm_num), Real.logb_one]
  norm_num

/-- Witness for C6 at coverages 0 ≤ 1: monotonicity applied at a concrete
pair. -/
theorem claim_C6_witness :
    cov_intensity ((0 : Nat) : ℝ) ≤ cov_intensity ((1 : Nat) : ℝ) :=
  claim_C6.2.2.2.1 0 1 (by decide)

theorem findFrom_eq_none_iff (c : Char) :
    ∀ s : List Char, findFrom c s = none ↔ ∀ a ∈ s, a ≠ c := by
  intro s
  induction s with
  | nil => simp [findFrom]
  | cons a rest ih =>
    by_cases h : a = c
    · simp [findFrom, h]
    · simp [findFrom, h, ih]

theorem findFrom_take (c : Char) :
    ∀ (s : List Char) (k : Nat), findFrom c s = some k → ∀ a ∈ s.take k, a ≠ c := by
  intro s
  induction s with
  | nil => intro k h; simp [findFrom] at h
  | cons b rest ih =>
    intro k h
    by_cases hb : b = c
    · simp [findFrom, hb] at h
      subst h
      simp
    · simp [findFrom, hb] at h
      obtain ⟨k', hk', rfl⟩ := h
      intro a ha
      rw [List.take_succ_cons] at ha
      rcases List.mem_cons.mp ha with rfl | ha'
      · exact hb
      · exact ih k' hk' a ha'

theorem prefix_drop (l₁ l₂ : List Char) (n : Nat) (h : l₁ <+: l₂) :
    l₁.drop n <+: l₂.drop n := by
  obtain ⟨t, rfl⟩ := h
  by_cases hn : n ≤ l₁.length
  · rw [List.drop_append_of_le_length hn]
    exact ⟨t, rfl⟩
  · rw [List.drop_eq_nil_of_le (by omega)]
    exact List.nil_prefix

theorem stripName_mem {g : List Char} {c : Char} (h : c ∈ stripName g) :
    c ≠ ' ' ∧ c ≠ '"' := by
  unfold stripName at h
  rw [List.mem_filter] at h
  obtain ⟨h1, h2⟩ := h
  rw [List.mem_filter] at h1
  exact ⟨by simpa using h1.2, by simpa using h2⟩

theorem stripName_eq_self {l : List Char} (h : ∀ c ∈ l, c ≠ ' ' ∧ c ≠ '"') :
    stripName l = l := by
  unfold stripName
  rw [List.filter_eq_self.mpr, List.filter_eq_self.mpr]
  · intro a ha
    simpa using (h a ha).1
  · intro a ha
    rw [List.mem_filter] at ha
    simpa using (h a ha.1).2

theorem hardTrunc_length_le (L : Nat) (s : List Char) :
    (hardTrunc L s).length ≤ L := by
  unfold hardTrunc
  split_ifs with h
  · simp [List.length_take]
  · omega

theorem hardTrunc_pfx (L : Nat) (s : List Char) : hardTrunc L s <+: s := by
  unfold hardTrunc
  split_ifs with h
  · exact List.take_prefix _ _
  · exact List.prefix_refl _

theorem hardTrunc_of_le {L : Nat} {s : List Char} (h : s.length ≤ L) :
    hardTrunc L s = s :=
  if_neg (by omega)

theorem commaTrunc_pfx (L : Nat) (s : List Char) : commaTrunc L s <+: s := by
  unfold commaTrunc
  split_ifs with h
  · cases hf : findFrom ',' (s.drop 6) with
    | some k => exact List.take_prefix _ _
    | none => exact List.prefix_refl _
  · exact List.prefix_refl _

theorem format_gene_name_idem (g : List Char) (L : Nat) :
    format_gene_name (format_gene_name g L) L = format_gene_name g L := by
  set s := stripName g with hs
  set y := format_gene_name g L with hy
  have hyd : y = hardTrunc L (commaTrunc L s) := rfl
  have hypre : y <+: s := hyd ▸ (hardTrunc_pfx _ _).trans (commaTrunc_pfx _ _)
  have hstrip : stripName y = y :=
    stripName_eq_self (fun c hc => stripName_mem (hypre.subset hc))
  have hylen : y.length ≤ L := hyd ▸ hardTrunc_length_le L _
  have hct : commaTrunc L y = y := by
    unfold commaTrunc
    split_ifs with hcond
    · have hnone : findFrom ',' (y.drop 6) = none := by
        rw [findFrom_eq_none_iff]
        intro a ha
        by_cases h1 : (s.length : Int) > (L : Int) - 4
        · cases hf : findFrom ',' (s.drop 6) with
          | none =>
            have hall : ∀ b ∈ s.drop 6, b ≠ ',' := (findFrom_eq_none_iff _ _).mp hf
            have hsub : y.drop 6 <+: s.drop 6 := prefix_drop _ _ 6 hypre
            exact hall a (hsub.subset ha)
          | some k =>
            have hcs : commaTrunc L s = s.take (6 + k) := by
              unfold commaTrunc
              rw [if_pos h1, hf]
            have hyp2 : y <+: s.take (6 + k) := by
              rw [hyd, hcs]
              exact hardTrunc_pfx _ _
            have hsub : y.drop 6 <+: (s.take (6 + k)).drop 6 := prefix_drop _ _ 6 hyp2
            rw [List.drop_take] at hsub
            have htake : ∀ b ∈ (s.drop 6).take (6 + k - 6), b ≠ ',' := by
              rw [show 6 + k - 6 = k from by omega]
              exact findFrom_take ',' (s.drop 6) k hf
            exact htake a (hsub.subset ha)
        · exfalso
          have hcs : commaTrunc L s = s := by
            unfold commaTrunc
            rw [if_neg h1]
          have hsl : s.length ≤ L := by omega
          have hys : y = s := by
            rw [hyd, hcs]
            exact hardTrunc_of_le hsl
          rw [hys] at hcond
          exact h1 hcond
      rw [hnone]
    · rfl
  show hardTrunc L (commaTrunc L (stripName y)) = y
  rw [hstrip, hct, hardTrunc_of_le hylen]

/-- C8: the label formatter is idempotent — re-formatting an already
formatted name with the same `max_length` leaves it unchanged. -/
theorem claim_C8 (x : String) (L : Nat) :
    formatGeneName (formatGeneName x L) L = formatGeneName x L := by
  unfold formatGeneName
  rw [show (String.mk (format_gene_name x.toList L)).toList
      = format_gene_name x.toList L from rfl]
  rw [format_gene_name_idem]

/-- C7 counterexample: on `'BRCA1, isoform "X"'` with `max_length = 12` the
formatter does not return `'BRCA1'`. -/
theorem claim_C7_counterexample :
    formatGeneName "BRCA1, isoform \"X\"" 12 ≠ "BRCA1" := by decide

/-- C7 (amended): after stripping spaces and quotes the name is
`'BRCA1,isoformX'`, whose only comma sits at index 5 — before index 6 — so
`find(',', 6)` fails (returns -1), the comma rule does not fire, and the
hard truncation to 12 characters yields `'BRCA1,isofor'`. -/
theorem claim_C7 :
    formatGeneName "BRCA1, isoform \"X\"" 12 = "BRCA1,isofor" ∧
    pyFind (stripName "BRCA1, isoform \"X\"".toList) ',' 6 = -1 := by
  constructor <;> decide

/-- C9: degenerate inputs are clamped or reduced, not errors: zero coverage
gives intensity 0 through the guarded division (and on the log scale), zero
samples give priority 0 and an empty column, and zero displayed mutations
give an empty ordering and an empty default subset — a minimal/empty but
well-defined layout. -/
theorem claim_C9 :
    (∀ mut_reads : ℚ, maf_intensity mut_reads 0 = 0) ∧
    cov_intensity 0 = 0 ∧
    hintonPriority ([] : List Int) = 0 ∧
    (∀ (p : Nat → Nat) (labels : Option (Nat → String)),
      sortDisplayed p labels [] = []) ∧
    (∀ (leafOrder : List Nat) (x_pos : Nat),
      clusteredColumnCells [] leafOrder x_pos = []) ∧
    clusteredRowLabels [] [] = [] ∧
    displayedDefault [] = [] := by
  refine ⟨fun r => ?_, ?_, rfl, fun p labels => rfl, fun lo x => rfl, rfl, rfl⟩
  · unfold maf_intensity raw_maf
    norm_num
  · unfold cov_intensity
    norm_num

/-- C10: the state classification is total — every cell value falls in
exactly one of the three display classes; any value that is neither strictly
positive nor one of the two sentinels (zero and other negatives included) is
absent with weight 0 and the absent hue; both sentinels get weight 1 and the
one merged ambiguous hue. -/
theorem claim_C10 (maf : Int) :
    (stateClass maf = .present ∨ stateClass maf = .ambiguous ∨
      stateClass maf = .absent) ∧
    (maf ≤ 0 → maf ≠ POS_UNKNOWN → maf ≠ NEG_UNKNOWN →
      stateClass maf = .absent ∧ weight maf = 0 ∧
      colorOf maf = .rgb 1 (3/10) (3/10)) ∧
    (weight POS_UNKNOWN = 1 ∧ weight NEG_UNKNOWN = 1 ∧
     stateClass POS_UNKNOWN = .ambiguous ∧ stateClass NEG_UNKNOWN = .ambiguous ∧
     colorOf POS_UNKNOWN = colorOf NEG_UNKNOWN ∧
     colorOf POS_UNKNOWN = .rgb (9/10) (3/4) (3/4)) := by
  refine ⟨?_, ?_, ?_⟩
  · unfold stateClass
    split_ifs <;> simp
  · intro h1 h2 h3
    have hng : ¬(maf > 0) := by omega
    refine ⟨?_, ?_, ?_⟩
    · unfold stateClass
      rw [if_neg hng, if_neg h2, if_neg h3]
    · unfold weight
      rw [if_neg hng, if_neg h2, if_neg h3]
    · unfold colorOf
      rw [if_neg hng, if_neg h2, if_neg h3]
  · refine ⟨?_, ?_, ?_, ?_, ?_, ?_⟩ <;>
      simp [weight, stateClass, colorOf, POS_UNKNOWN, NEG_UNKNOWN]

/-- Witness for C10 at the non-sentinel negative value -5: classified absent
with weight 0 and the absent hue. -/
theorem claim_C10_witness :
    stateClass (-5) = .absent ∧ weight (-5) = 0 ∧
      colorOf (-5) = .rgb 1 (3/10) (3/10) :=
  (claim_C10 (-5)).2.1 (by decide) (by decide) (by decide)

end Treeomics
